import Mathlib

/-!
# xcrun: command resolution and process replacement

A shallow embedding of `src/xcrun/xcrun.c` (`usage`, `get_sdk_path`,
`call_command`, `find_command`, `main`) and of the libc string routines it
calls, followed by theorems about the embedding.

## Modelling conventions

* A C string is the list of its bytes before the terminating NUL (`CStr`).
* Every string object (an environment value, a `malloc` block, the local array
  `devpath`) is its own zero-filled buffer with room to grow: array bounds and
  the clobbering of neighbouring objects are outside the model, and the storage
  of `devpath` is still readable after `get_sdk_path` has returned.
* Writes through a pointer that aliases an environment value are writes to that
  environment value: `strtok` on the result of `getenv("PATH")`, `strcat` on the
  result of `getenv("HOME")` and on the pointer returned by `get_sdk_path`.
* The operating system is a `World`: the answers of `access`, `execv` and
  `fopen`, the text of `strerror`, and the constant `PATH_MAX` of `limits.h`.
* Observable actions are recorded, in order, in `State.trace`.
* The arguments of `find_command(argv[1], ++argv)` are evaluated left to right.
-/

namespace Xcrun

/-- Bytes of a C string, terminator excluded. -/
abbrev CStr := List Char

/-- The environment variables the program reads, as `getenv` sees them. -/
structure Environ where
  PATH : Option CStr
  HOME : Option CStr
  DEVELOPER_DIR : Option CStr
deriving DecidableEq

/-- Observable actions of the process. `execv` records the environment that the
new program image would inherit. -/
inductive Event where
  | getenv (var : String)
  | access (path : CStr)
  | fopen (path : CStr)
  | execv (path : CStr) (argv : List CStr) (env : Environ)
  | stderr (text : CStr)
deriving DecidableEq

/-- The operating system as seen by the program. `access` and `execv` answer
`none` on success and `some errno` on failure; `fopen` answers the file's bytes
or an `errno`. -/
structure World where
  PATH_MAX : Nat
  access : CStr → Option Nat
  execv : CStr → List CStr → Option Nat
  fopen : CStr → Except Nat (List Char)
  strerror : Nat → CStr

/-- Process state threaded through the program. -/
structure State where
  env : Environ
  errno : Nat
  trace : List Event

/-- How a function call ends: the process image was replaced, `exit` was called,
the function returned, or the model's loop bound was exhausted. -/
inductive Outcome (α : Type) where
  | replaced : Outcome α
  | exited (status : Nat) : Outcome α
  | returned (value : α) : Outcome α
  | timeout : Outcome α
deriving DecidableEq

/-- The pointer returned by `get_sdk_path`. -/
inductive SdkPtr where
  | developer_dir : SdkPtr
  | devpath (bytes : CStr) : SdkPtr
deriving DecidableEq

/-! ## libc -/

def NUL : Char := Char.ofNat 0

def strlen (s : CStr) : Nat := s.length

def strcat (dst src : CStr) : CStr := dst ++ src

def strncat (dst src : CStr) (n : Nat) : CStr := dst ++ src.take n

/-- Writes `n` bytes at `dst`: the first `n` bytes of `src`, NUL-padded when
`src` is shorter. No terminator is written when `src` has `n` bytes or more. -/
def strncpy (dst src : CStr) (n : Nat) : CStr :=
  if n ≤ src.length then src.take n ++ dst.drop n else src

/-- A fresh block from `malloc`, read as a string. -/
def malloc : CStr := []

def strspn (s accept : CStr) : Nat := (s.takeWhile (fun c => accept.contains c)).length

def strcspn (s reject : CStr) : Nat := (s.takeWhile (fun c => !reject.contains c)).length

/-- Result of one `strtok` call: the token returned (`none` for `NULL`), what
the string at the scanned pointer reads once the terminator has been written,
and the string at the saved pointer. -/
structure Strtok where
  token : Option CStr
  head : CStr
  save : CStr
deriving DecidableEq

/-- One call of `strtok` on the string `s`: skip leading delimiters, return the
run of non-delimiters that follows, overwrite the delimiter ending it with NUL
and save the position after it. -/
def strtok (s delim : CStr) : Strtok :=
  let n := strspn s delim
  let t := s.drop n
  if t = [] then ⟨none, s, []⟩
  else
    let m := strcspn t delim
    ⟨some (t.take m), s.take (n + m), (t.drop m).drop 1⟩

/-- Bytes stored by `fread(buf, size, 1, fp)` into a zeroed buffer, read back as
a string. -/
def fread (file : List Char) (size : Nat) : CStr :=
  (file.take size).takeWhile (fun c => c != NUL)

def DARWINSDK_CFG : CStr := ".darwinsdk.dat".toList

def State.emit (s : State) (e : Event) : State :=
  { s with trace := s.trace ++ [e] }

def msg_home : CStr := "xcode-select: error: failed to read HOME variable.\n".toList

def msg_cfg (w : World) (errno : Nat) : CStr :=
  "xcode-select: error: unable to read configuration file. (errno=".toList
    ++ w.strerror errno ++ ")\n".toList

def msg_path : CStr := "xcrun: error: failed to read PATH variable.\n".toList

def msg_cant_exec (w : World) (cmd : CStr) (errno : Nat) : CStr :=
  "xcrun: error: can't exec '".toList ++ cmd ++ "' (errno=".toList
    ++ w.strerror errno ++ ")\n".toList

/-- The string a pointer returned by `get_sdk_path` reads. -/
def SdkPtr.read (s : State) : SdkPtr → CStr
  | .developer_dir => s.env.DEVELOPER_DIR.getD []
  | .devpath bytes => bytes

/-- Stores a string through a pointer returned by `get_sdk_path`. -/
def SdkPtr.write (s : State) (v : CStr) : SdkPtr → State × SdkPtr
  | .developer_dir => ({ s with env := { s.env with DEVELOPER_DIR := some v } }, .developer_dir)
  | .devpath _ => (s, .devpath v)

/-- `get_sdk_path` (xcrun.c:56-92). The value of `DEVELOPER_DIR` is returned as
it is when set. Otherwise the path of the configuration file is built by
appending to the value of `HOME` in place, the file is opened, and up to
`PATH_MAX` bytes of it are read into the zeroed array `devpath`.
`fseek(fp, SEEK_SET, 0)` leaves the position at the start of the file. -/
def get_sdk_path (w : World) (s : State) : Option SdkPtr × State :=
  let s := s.emit (.getenv "DEVELOPER_DIR")
  match s.env.DEVELOPER_DIR with
  | some _ => (some .developer_dir, s)
  | none =>
    let s := s.emit (.getenv "HOME")
    match s.env.HOME with
    | none => (none, s.emit (.stderr msg_home))
    | some pathtocfg =>
      let darwincfg_path := malloc
      let pathtocfg := strcat pathtocfg "/".toList
      let pathtocfg := strcat pathtocfg DARWINSDK_CFG
      let s := { s with env := { s.env with HOME := some pathtocfg } }
      let darwincfg_path := strcat darwincfg_path pathtocfg
      let s := s.emit (.fopen darwincfg_path)
      match w.fopen darwincfg_path with
      | .ok file =>
        let devpath := fread file w.PATH_MAX
        (some (.devpath devpath), s)
      | .error e =>
        let s := { s with errno := e }
        (none, s.emit (.stderr (msg_cfg w s.errno)))

/-- `call_command` (xcrun.c:100-103): `execv(cmd, argv)`. The result is `none`
when the process image has been replaced, and the `errno` otherwise. -/
def call_command (w : World) (cmd : CStr) (argv : List CStr) (s : State) :
    Option Nat × State :=
  (w.execv cmd argv, s.emit (.execv cmd argv s.env))

/-- The local `delimiter` of `find_command`. -/
def delimiter : CStr := ":".toList

/-- The part of `find_command` after the `while` loop (xcrun.c:147-164): the
SDK fallback and the final diagnostic. The candidate is built in place in the
string `get_sdk_path` returned. -/
def find_command_sdk (w : World) (name : CStr) (argv : List CStr) (s : State) :
    Outcome (Option CStr) × State :=
  let notfound (s : State) : Outcome (Option CStr) × State :=
    (.returned none, s.emit (.stderr (msg_cant_exec w name s.errno)))
  match get_sdk_path w s with
  | (none, s) => notfound s
  | (some this_path, s) =>
    let (s, this_path) := this_path.write s (strcat (this_path.read s) "/bin/".toList)
    let (s, cmd) := this_path.write s (strncat (this_path.read s) name (strlen name))
    let s := s.emit (.access (cmd.read s))
    match w.access (cmd.read s) with
    | none =>
      match call_command w (cmd.read s) argv s with
      | (none, s) => (.replaced, s)
      | (some e, s) =>
        let s := { s with errno := e }
        (.returned none, s.emit (.stderr (msg_cant_exec w (cmd.read s) s.errno)))
    | some e => notfound { s with errno := e }

/-- The `while (absl_path != NULL)` loop of `find_command` (xcrun.c:128-145),
followed by the rest of the function. `save` is the string at the pointer
`strtok` has saved; the first argument bounds the number of iterations. -/
def find_command_loop (w : World) (name : CStr) (argv : List CStr) :
    Nat → Option CStr → CStr → State → Outcome (Option CStr) × State
  | _, none, _, s => find_command_sdk w name argv s
  | 0, some _, _, s => (.timeout, s)
  | fuel + 1, some absl_path, save, s =>
    let this_path := malloc
    let this_path := strncpy this_path absl_path (strlen absl_path)
    let cmd := strncat (strcat this_path "/".toList) name (strlen name)
    let s := s.emit (.access cmd)
    match w.access cmd with
    | none =>
      match call_command w cmd argv s with
      | (none, s) => (.replaced, s)
      | (some e, s) =>
        let s := { s with errno := e }
        (.returned none, s.emit (.stderr (msg_cant_exec w cmd s.errno)))
    | some e =>
      let s := { s with errno := e }
      let r := strtok save delimiter
      find_command_loop w name argv fuel r.token r.save s

/-- `find_command` (xcrun.c:111-165). `strtok` works on the value of `PATH`
itself, so the terminator it writes shortens that value. The loop is bounded by
the length of `PATH`; the bound is never reached (`find_command_eq_scan`), since
every token takes at least one byte. -/
def find_command (w : World) (name : CStr) (argv : List CStr) (s : State) :
    Outcome (Option CStr) × State :=
  let s := s.emit (.getenv "PATH")
  match s.env.PATH with
  | some env_path =>
    let r := strtok env_path delimiter
    let s := { s with env := { s.env with PATH := some r.head } }
    find_command_loop w name argv (strlen env_path) r.token r.save s
  | none => (.returned none, s.emit (.stderr msg_path))

def str (s : String) : CStr := s.toList

/-- A world in which exactly the paths of `exe` pass `access(_, X_OK)`, `execv`
fails (ENOEXEC) exactly on the paths of `broken`, and the files that can be
opened are those of `files`, with the contents given. -/
def testWorld (exe broken : List String) (files : List (String × String)) : World where
  PATH_MAX := 4096
  access := fun p => if p ∈ exe.map str then none else some 2
  execv := fun p _ => if p ∈ broken.map str then some 8 else none
  fopen := fun p =>
    match files.find? (fun f => str f.1 == p) with
    | some f => .ok (str f.2)
    | none => .error 2
  strerror := fun e =>
    if e = 2 then str "No such file or directory"
    else if e = 8 then str "Exec format error" else str "Unknown error"

def testEnv (path home dev : Option String) : Environ :=
  ⟨path.map str, home.map str, dev.map str⟩

/-! ## Notions used by the statements -/

/-- Colon-split of a `PATH` value, empty segments kept. -/
def splitColon (p : CStr) : List CStr := p.splitOn ':'

/-- The non-empty segments of a `PATH` value, in order. -/
def entries (p : CStr) : List CStr := (splitColon p).filter (fun d => !d.isEmpty)

/-- Candidate path for a directory: directory + "/" + name. -/
def candidate (dir name : CStr) : CStr := dir ++ "/".toList ++ name

/-- Candidate path under an SDK root: root + "/bin/" + name. -/
def sdkCandidate (root name : CStr) : CStr := root ++ "/bin/".toList ++ name

/-- What happens once a candidate has passed `access`: `call_command`, and the
diagnostic when it returns. -/
def try_exec (w : World) (cmd : CStr) (argv : List CStr) (s : State) :
    Outcome (Option CStr) × State :=
  match w.execv cmd argv with
  | none => (.replaced, s.emit (.execv cmd argv s.env))
  | some e =>
    (.returned none,
      { env := s.env, errno := e,
        trace := s.trace ++ [.execv cmd argv s.env, .stderr (msg_cant_exec w cmd e)] })

/-- The `PATH` loop as a recursion over the list of directories still to try. -/
def scan (w : World) (name : CStr) (argv : List CStr) :
    List CStr → State → Outcome (Option CStr) × State
  | [], s => find_command_sdk w name argv s
  | d :: ds, s =>
    match w.access (candidate d name) with
    | none => try_exec w (candidate d name) argv (s.emit (.access (candidate d name)))
    | some e =>
      scan w name argv ds
        { env := s.env, errno := e, trace := s.trace ++ [.access (candidate d name)] }

/-- The value of `errno` after every candidate of `ds` has failed `access`. -/
def missErrno (w : World) (name : CStr) (ds : List CStr) (e0 : Nat) : Nat :=
  ds.foldl (fun e d => (w.access (candidate d name)).getD e) e0

/-- The events of testing (and failing) the candidates of `ds`. -/
def missEvents (name : CStr) (ds : List CStr) : List Event :=
  ds.map (fun d => Event.access (candidate d name))

/-- The root the SDK root resolver yields: the string its result points at. -/
def sdk_root (w : World) (s : State) : Option CStr :=
  match get_sdk_path w s with
  | (some p, s1) => some (p.read s1)
  | (none, _) => none

/-- Paths handed to `access`, in order. -/
def accesses (tr : List Event) : List CStr :=
  tr.filterMap (fun e => match e with | .access p => some p | _ => none)

/-- Paths and argument vectors handed to `execv`, in order. -/
def execvs (tr : List Event) : List (CStr × List CStr) :=
  tr.filterMap (fun e => match e with | .execv p a _ => some (p, a) | _ => none)

/-- Environments in force at each `execv`, in order. -/
def execEnvs (tr : List Event) : List Environ :=
  tr.filterMap (fun e => match e with | .execv _ _ env => some env | _ => none)

/-- Text written to standard error, in order. -/
def stderrs (tr : List Event) : List CStr :=
  tr.filterMap (fun e => match e with | .stderr t => some t | _ => none)

/-- Files handed to `fopen`, in order. -/
def fopens (tr : List Event) : List CStr :=
  tr.filterMap (fun e => match e with | .fopen p => some p | _ => none)

/-- Variables handed to `getenv`, in order. -/
def getenvs (tr : List Event) : List String :=
  tr.filterMap (fun e => match e with | .getenv v => some v | _ => none)

/-- The events before the SDK root resolver is entered (its first action is
`getenv("DEVELOPER_DIR")`). -/
def pathPhase (tr : List Event) : List Event :=
  tr.takeWhile (fun e => e != Event.getenv "DEVELOPER_DIR")

/-- The candidates a first-match scan of the directories `ds` tests: every
candidate up to and including the first executable one. -/
def scanned (w : World) (name : CStr) : List CStr → List CStr
  | [] => []
  | d :: ds =>
    candidate d name ::
      (match w.access (candidate d name) with
       | none => []
       | some _ => scanned w name ds)

/-- The SDK fallback once the candidate `cmd` has been built: test it, then
either `call_command` it or print the final diagnostic for `name`. -/
def sdk_try (w : World) (name : CStr) (argv : List CStr) (cmd : CStr) (s : State) :
    Outcome (Option CStr) × State :=
  match w.access cmd with
  | none => try_exec w cmd argv (s.emit (.access cmd))
  | some e =>
    (.returned none,
      { env := s.env, errno := e,
        trace := s.trace ++ [.access cmd, .stderr (msg_cant_exec w name e)] })

/-- Start state of a process: the given environment, `errno` and an empty trace. -/
def start (env : Environ) (e0 : Nat) : State := ⟨env, e0, []⟩

end Xcrun

namespace Xcrun

theorem delimiter_contains (c : Char) : delimiter.contains c = (c == ':') := by
  simp only [delimiter, List.contains, String.toList, List.elem]
  cases c == ':' <;> rfl

theorem drop_length_takeWhile (p : Char → Bool) (l : CStr) :
    l.drop (l.takeWhile p).length = l.dropWhile p := by
  induction l with
  | nil => rfl
  | cons a l ih =>
    by_cases h : p a <;> simp [List.takeWhile, List.dropWhile, h, ih]

theorem take_length_takeWhile (p : Char → Bool) (l : CStr) :
    l.take (l.takeWhile p).length = l.takeWhile p := by
  induction l with
  | nil => rfl
  | cons a l ih =>
    by_cases h : p a <;> simp [List.takeWhile, h, ih]

/-- Closed form of `strtok` with the delimiter set ":". -/
theorem strtok_delimiter (s : CStr) :
    strtok s delimiter =
      if s.dropWhile (fun c => c == ':') = [] then ⟨none, s, []⟩
      else
        ⟨some ((s.dropWhile (fun c => c == ':')).takeWhile (fun c => !(c == ':'))),
         s.takeWhile (fun c => c == ':')
           ++ (s.dropWhile (fun c => c == ':')).takeWhile (fun c => !(c == ':')),
         ((s.dropWhile (fun c => c == ':')).dropWhile (fun c => !(c == ':'))).drop 1⟩ := by
  have hc : (fun c => delimiter.contains c) = (fun c => c == ':') := by
    funext c; exact delimiter_contains c
  have hn : (fun c => !delimiter.contains c) = (fun c => !(c == ':')) := by
    funext c; rw [delimiter_contains]
  unfold strtok strspn strcspn
  simp only [hc, hn, drop_length_takeWhile, take_length_takeWhile]
  split
  · rfl
  · congr 1
    rw [List.take_add, take_length_takeWhile, drop_length_takeWhile, take_length_takeWhile]

theorem entries_nil : entries [] = [] := by
  simp [entries, splitColon, List.splitOn, List.splitOnP_nil]

theorem entries_colon (s : CStr) : entries (':' :: s) = entries s := by
  simp [entries, splitColon, List.splitOn, List.splitOnP_cons]

theorem entries_dropWhile (s : CStr) :
    entries (s.dropWhile (fun c => c == ':')) = entries s := by
  induction s with
  | nil => rfl
  | cons a l ih =>
    by_cases h : a = ':'
    · subst h
      simp only [List.dropWhile, beq_self_eq_true, entries_colon]
      exact ih
    · have hb : (a == ':') = false := by simpa using h
      simp [List.dropWhile, hb]

theorem takeWhile_ne_colon (s : CStr) :
    ∀ x ∈ s.takeWhile (fun c => !(c == ':')), ¬ ((x == ':') = true) := by
  intro x hx
  have := List.mem_takeWhile_imp hx
  simpa using this

theorem dropWhile_ne_colon (s : CStr) :
    s.dropWhile (fun c => !(c == ':')) = [] ∨
      ∃ r, s.dropWhile (fun c => !(c == ':')) = ':' :: r := by
  cases h : s.dropWhile (fun c => !(c == ':')) with
  | nil => exact Or.inl rfl
  | cons a r =>
    right
    have := List.head_dropWhile_not (fun c => !(c == ':')) s (by simp [h])
    simp only [h, List.head_cons] at this
    have ha : a = ':' := by simpa using this
    exact ⟨r, by rw [ha]⟩

/-- A string that starts with a non-delimiter splits into its first run of
non-delimiters and the entries of what follows the delimiter ending it. -/
theorem entries_token (a : Char) (l : CStr) (ha : a ≠ ':') :
    entries (a :: l) =
      (a :: l).takeWhile (fun c => !(c == ':'))
        :: entries (((a :: l).dropWhile (fun c => !(c == ':'))).drop 1) := by
  have hsplit := List.takeWhile_append_dropWhile (fun c => !(c == ':')) (a :: l)
  have hne : (a :: l).takeWhile (fun c => !(c == ':')) ≠ [] := by
    have hb : (a == ':') = false := by simpa using ha
    simp [List.takeWhile, hb]
  rcases dropWhile_ne_colon (a :: l) with h | ⟨r, h⟩
  · rw [h] at hsplit
    rw [h]
    simp only [List.append_nil] at hsplit
    rw [hsplit]
    simp only [List.drop_nil, entries_nil]
    have : splitColon (a :: l) = [a :: l] := by
      unfold splitColon List.splitOn
      apply List.splitOnP_eq_single
      intro x hx
      rw [← hsplit] at hx
      exact takeWhile_ne_colon (a :: l) x hx
    simp [entries, this]
  · rw [h] at hsplit
    rw [h]
    simp only [List.drop_succ_cons, List.drop_zero]
    have : splitColon (a :: l)
        = (a :: l).takeWhile (fun c => !(c == ':')) :: splitColon r := by
      unfold splitColon List.splitOn
      conv_lhs => rw [← hsplit]
      exact List.splitOnP_first _ _ (takeWhile_ne_colon (a :: l)) ':' (by simp) r
    rw [entries, this, List.filter_cons]
    have hz : (!((a :: l).takeWhile (fun c => !(c == ':'))).isEmpty) = true := by
      cases hq : (a :: l).takeWhile (fun c => !(c == ':')) with
      | nil => exact absurd hq hne
      | cons _ _ => rfl
    rw [if_pos hz]
    rfl

/-- One `strtok` call peels the first non-empty segment off the string. -/
theorem strtok_entries (s : CStr) :
    entries s =
      match (strtok s delimiter).token with
      | none => []
      | some t => t :: entries (strtok s delimiter).save := by
  rw [strtok_delimiter, ← entries_dropWhile s]
  cases h : s.dropWhile (fun c => c == ':') with
  | nil => simp [entries_nil]
  | cons a l =>
    have ha : a ≠ ':' := by
      have := List.head_dropWhile_not (fun c => c == ':') s (by simp [h])
      simp only [h, List.head_cons] at this
      simpa using this
    simp only [reduceCtorEq, if_false]
    exact entries_token a l ha

theorem strtok_save_length (s t : CStr) (h : (strtok s delimiter).token = some t) :
    (strtok s delimiter).save.length < s.length := by
  rw [strtok_delimiter] at h ⊢
  cases hd : s.dropWhile (fun c => c == ':') with
  | nil => simp [hd] at h
  | cons a l =>
    simp only [reduceCtorEq, if_false, List.length_drop]
    have h1 : (s.dropWhile (fun c => c == ':')).length ≤ s.length :=
      (List.dropWhile_sublist _).length_le
    have h2 : ((a :: l).dropWhile (fun c => !(c == ':'))).length ≤ (a :: l).length :=
      (List.dropWhile_sublist _).length_le
    rw [hd] at h1
    rcases dropWhile_ne_colon (a :: l) with h3 | ⟨r, h3⟩
    · rw [h3]; simp only [List.length_nil]; simp only [List.length_cons] at h1; omega
    · rw [h3] at h2 ⊢; simp only [List.length_cons] at h1 h2 ⊢; omega

theorem candidate_built (absl_path name : CStr) :
    strncat (strcat (strncpy malloc absl_path (strlen absl_path)) "/".toList) name (strlen name)
      = candidate absl_path name := by
  simp [strncat, strcat, strncpy, strlen, malloc, candidate]

theorem loop_none (w : World) (name : CStr) (argv : List CStr) (fuel : Nat) (save : CStr)
    (s : State) :
    find_command_loop w name argv fuel none save s = find_command_sdk w name argv s := by
  cases fuel <;> rfl

/-- With a bound above the length of the unscanned rest of `PATH`, the loop is
the scan of the current token followed by the non-empty segments of the rest. -/
theorem loop_eq_scan (w : World) (name : CStr) (argv : List CStr) :
    ∀ (fuel : Nat) (t save : CStr) (s : State), save.length < fuel →
      find_command_loop w name argv fuel (some t) save s
        = scan w name argv (t :: entries save) s := by
  intro fuel
  induction fuel with
  | zero => intro t save s h; exact absurd h (Nat.not_lt_zero _)
  | succ n ih =>
    intro t save s h
    rw [find_command_loop, scan]
    simp only [candidate_built]
    cases hacc : w.access (candidate t name) with
    | none =>
      simp only [call_command, try_exec, State.emit]
      cases w.execv (candidate t name) argv <;> simp
    | some e =>
      simp only []
      have hent := strtok_entries save
      cases htok : (strtok save delimiter).token with
      | none =>
        rw [htok] at hent
        rw [loop_none, hent]
        rfl
      | some t2 =>
        rw [htok] at hent
        have hlen := strtok_save_length save t2 htok
        rw [ih t2 _ _ (by omega), hent]
        rfl

/-- Closed form of `find_command` when `PATH` is set. -/
theorem find_command_eq_scan (w : World) (name : CStr) (argv : List CStr) (s : State)
    (p : CStr) (hp : s.env.PATH = some p) :
    find_command w name argv s
      = scan w name argv (entries p)
          { env := { s.env with PATH := some (strtok p delimiter).head },
            errno := s.errno, trace := s.trace ++ [.getenv "PATH"] } := by
  unfold find_command
  simp only [State.emit, hp]
  have hent := strtok_entries p
  cases htok : (strtok p delimiter).token with
  | none =>
    rw [htok] at hent
    rw [loop_none, hent]
    rfl
  | some t =>
    rw [htok] at hent
    have hlen := strtok_save_length p t htok
    rw [loop_eq_scan w name argv _ t _ _ (by simpa [strlen] using hlen), hent]

theorem scan_miss (w : World) (name : CStr) (argv : List CStr) :
    ∀ (pre rest : List CStr) (s : State),
      (∀ x ∈ pre, w.access (candidate x name) ≠ none) →
      scan w name argv (pre ++ rest) s
        = scan w name argv rest
            { env := s.env, errno := missErrno w name pre s.errno,
              trace := s.trace ++ missEvents name pre } := by
  intro pre
  induction pre with
  | nil => intro rest s _; simp [missErrno, missEvents]
  | cons d ds ih =>
    intro rest s h
    have hd := h d (List.mem_cons_self _ _)
    have hds : ∀ x ∈ ds, w.access (candidate x name) ≠ none :=
      fun x hx => h x (List.mem_cons_of_mem _ hx)
    rw [List.cons_append, scan]
    cases hacc : w.access (candidate d name) with
    | none => exact absurd hacc hd
    | some e =>
      simp only []
      rw [ih rest _ hds]
      simp [missErrno, missEvents, hacc]

theorem scan_hit (w : World) (name : CStr) (argv : List CStr) (d : CStr) (post : List CStr)
    (s : State) (hd : w.access (candidate d name) = none) :
    scan w name argv (d :: post) s
      = try_exec w (candidate d name) argv (s.emit (.access (candidate d name))) := by
  rw [scan]; simp only [hd]

/-- Closed form of `find_command` when the first executable candidate comes from
the non-empty segment `d` of `PATH`. -/
theorem find_command_hit (w : World) (name : CStr) (argv : List CStr) (s : State)
    (p : CStr) (pre : List CStr) (d : CStr) (post : List CStr)
    (hp : s.env.PATH = some p) (hsplit : entries p = pre ++ d :: post)
    (hpre : ∀ x ∈ pre, w.access (candidate x name) ≠ none)
    (hd : w.access (candidate d name) = none) :
    find_command w name argv s
      = try_exec w (candidate d name) argv
          { env := { s.env with PATH := some (strtok p delimiter).head },
            errno := missErrno w name pre s.errno,
            trace := s.trace ++ Event.getenv "PATH" :: missEvents name pre
                      ++ [Event.access (candidate d name)] } := by
  rw [find_command_eq_scan w name argv s p hp, hsplit, scan_miss w name argv pre _ _ hpre,
    scan_hit w name argv d post _ hd]
  simp [State.emit]

/-- Closed form of `find_command` when no non-empty segment of `PATH` gives an
executable candidate. -/
theorem find_command_miss (w : World) (name : CStr) (argv : List CStr) (s : State)
    (p : CStr) (hp : s.env.PATH = some p)
    (hall : ∀ x ∈ entries p, w.access (candidate x name) ≠ none) :
    find_command w name argv s
      = find_command_sdk w name argv
          { env := { s.env with PATH := some (strtok p delimiter).head },
            errno := missErrno w name (entries p) s.errno,
            trace := s.trace ++ Event.getenv "PATH" :: missEvents name (entries p) } := by
  rw [find_command_eq_scan w name argv s p hp]
  have := scan_miss w name argv (entries p) []
    { env := { s.env with PATH := some (strtok p delimiter).head },
      errno := s.errno, trace := s.trace ++ [.getenv "PATH"] } hall
  rw [List.append_nil] at this
  rw [this, scan]
  simp

theorem get_sdk_path_dev (w : World) (s : State) (v : CStr)
    (hd : s.env.DEVELOPER_DIR = some v) :
    get_sdk_path w s = (some .developer_dir, s.emit (.getenv "DEVELOPER_DIR")) := by
  simp [get_sdk_path, State.emit, hd]

theorem get_sdk_path_nohome (w : World) (s : State)
    (hd : s.env.DEVELOPER_DIR = none) (hh : s.env.HOME = none) :
    get_sdk_path w s
      = (none, { env := s.env, errno := s.errno,
                 trace := s.trace ++ [.getenv "DEVELOPER_DIR", .getenv "HOME",
                                      .stderr msg_home] }) := by
  simp [get_sdk_path, State.emit, hd, hh]

theorem get_sdk_path_file (w : World) (s : State) (h : CStr) (file : List Char)
    (hd : s.env.DEVELOPER_DIR = none) (hh : s.env.HOME = some h)
    (hf : w.fopen (candidate h DARWINSDK_CFG) = .ok file) :
    get_sdk_path w s
      = (some (.devpath (fread file w.PATH_MAX)),
          { env := { s.env with HOME := some (candidate h DARWINSDK_CFG) }, errno := s.errno,
            trace := s.trace ++ [.getenv "DEVELOPER_DIR", .getenv "HOME",
                                 .fopen (candidate h DARWINSDK_CFG)] }) := by
  have hc : ∀ x : CStr, strcat malloc x = x := by intro x; simp [strcat, malloc]
  have hc2 : strcat (strcat h "/".toList) DARWINSDK_CFG = candidate h DARWINSDK_CFG := by
    simp [strcat, candidate]
  simp only [get_sdk_path, State.emit, hd, hh, hc, hc2, hf]
  simp

theorem get_sdk_path_nofile (w : World) (s : State) (h : CStr) (e : Nat)
    (hd : s.env.DEVELOPER_DIR = none) (hh : s.env.HOME = some h)
    (hf : w.fopen (candidate h DARWINSDK_CFG) = .error e) :
    get_sdk_path w s
      = (none,
          { env := { s.env with HOME := some (candidate h DARWINSDK_CFG) }, errno := e,
            trace := s.trace ++ [.getenv "DEVELOPER_DIR", .getenv "HOME",
                                 .fopen (candidate h DARWINSDK_CFG),
                                 .stderr (msg_cfg w e)] }) := by
  have hc : ∀ x : CStr, strcat malloc x = x := by intro x; simp [strcat, malloc]
  have hc2 : strcat (strcat h "/".toList) DARWINSDK_CFG = candidate h DARWINSDK_CFG := by
    simp [strcat, candidate]
  simp only [get_sdk_path, State.emit, hd, hh, hc, hc2, hf]
  simp

theorem sdk_root_eq (w : World) (s : State) :
    sdk_root w s =
      match s.env.DEVELOPER_DIR with
      | some v => some v
      | none =>
        match s.env.HOME with
        | none => none
        | some h =>
          match w.fopen (candidate h DARWINSDK_CFG) with
          | .ok file => some (fread file w.PATH_MAX)
          | .error _ => none := by
  unfold sdk_root
  cases hd : s.env.DEVELOPER_DIR with
  | some v =>
    rw [get_sdk_path_dev w s v hd]
    simp [SdkPtr.read, State.emit, hd]
  | none =>
    cases hh : s.env.HOME with
    | none => rw [get_sdk_path_nohome w s hd hh]
    | some h =>
      cases hf : w.fopen (candidate h DARWINSDK_CFG) with
      | ok file => rw [get_sdk_path_file w s h file hd hh hf]; simp [SdkPtr.read, hf]
      | error e => rw [get_sdk_path_nofile w s h e hd hh hf]; simp [hf]

theorem find_command_sdk_dev (w : World) (name : CStr) (argv : List CStr) (s : State)
    (v : CStr) (hd : s.env.DEVELOPER_DIR = some v) :
    find_command_sdk w name argv s
      = sdk_try w name argv (sdkCandidate v name)
          { env := { s.env with DEVELOPER_DIR := some (sdkCandidate v name) },
            errno := s.errno, trace := s.trace ++ [.getenv "DEVELOPER_DIR"] } := by
  have hc : strncat (strcat v "/bin/".toList) name (strlen name) = sdkCandidate v name := by
    simp [strncat, strcat, strlen, sdkCandidate]
  unfold find_command_sdk
  rw [get_sdk_path_dev w s v hd]
  simp only [SdkPtr.write, SdkPtr.read, State.emit, hd, Option.getD_some, hc, sdk_try,
    call_command, try_exec]
  cases w.access (sdkCandidate v name) with
  | none => cases w.execv (sdkCandidate v name) argv <;> simp
  | some e => simp

theorem find_command_sdk_file (w : World) (name : CStr) (argv : List CStr) (s : State)
    (h : CStr) (file : List Char)
    (hd : s.env.DEVELOPER_DIR = none) (hh : s.env.HOME = some h)
    (hf : w.fopen (candidate h DARWINSDK_CFG) = .ok file) :
    find_command_sdk w name argv s
      = sdk_try w name argv (sdkCandidate (fread file w.PATH_MAX) name)
          { env := { s.env with HOME := some (candidate h DARWINSDK_CFG) }, errno := s.errno,
            trace := s.trace ++ [.getenv "DEVELOPER_DIR", .getenv "HOME",
                                 .fopen (candidate h DARWINSDK_CFG)] } := by
  have hc : ∀ v : CStr,
      strncat (strcat v "/bin/".toList) name (strlen name) = sdkCandidate v name := by
    intro v; simp [strncat, strcat, strlen, sdkCandidate]
  unfold find_command_sdk
  rw [get_sdk_path_file w s h file hd hh hf]
  simp only [SdkPtr.write, SdkPtr.read, State.emit, hc, sdk_try, call_command, try_exec]
  cases w.access (sdkCandidate (fread file w.PATH_MAX) name) with
  | none => cases w.execv (sdkCandidate (fread file w.PATH_MAX) name) argv <;> simp
  | some e => simp

theorem find_command_sdk_nohome (w : World) (name : CStr) (argv : List CStr) (s : State)
    (hd : s.env.DEVELOPER_DIR = none) (hh : s.env.HOME = none) :
    find_command_sdk w name argv s
      = (.returned none,
          { env := s.env, errno := s.errno,
            trace := s.trace ++ [.getenv "DEVELOPER_DIR", .getenv "HOME", .stderr msg_home,
                                 .stderr (msg_cant_exec w name s.errno)] }) := by
  unfold find_command_sdk
  rw [get_sdk_path_nohome w s hd hh]
  simp [State.emit]

theorem find_command_sdk_nofile (w : World) (name : CStr) (argv : List CStr) (s : State)
    (h : CStr) (e : Nat)
    (hd : s.env.DEVELOPER_DIR = none) (hh : s.env.HOME = some h)
    (hf : w.fopen (candidate h DARWINSDK_CFG) = .error e) :
    find_command_sdk w name argv s
      = (.returned none,
          { env := { s.env with HOME := some (candidate h DARWINSDK_CFG) }, errno := e,
            trace := s.trace ++ [.getenv "DEVELOPER_DIR", .getenv "HOME",
                                 .fopen (candidate h DARWINSDK_CFG), .stderr (msg_cfg w e),
                                 .stderr (msg_cant_exec w name e)] }) := by
  unfold find_command_sdk
  rw [get_sdk_path_nofile w s h e hd hh hf]
  simp [State.emit]

/-- When the resolver yields the root `r`, the fallback tests the candidate
`r + "/bin/" + name` in a state whose trace extends the current one by reads of
the environment and at most one `fopen`. -/
theorem find_command_sdk_some (w : World) (name : CStr) (argv : List CStr) (s : State)
    (r : CStr) (hr : sdk_root w s = some r) :
    ∃ (env2 : Environ) (evs : List Event),
      find_command_sdk w name argv s
        = sdk_try w name argv (sdkCandidate r name)
            { env := env2, errno := s.errno,
              trace := s.trace ++ Event.getenv "DEVELOPER_DIR" :: evs } ∧
      env2.PATH = s.env.PATH ∧ accesses evs = [] ∧ execvs evs = [] ∧ stderrs evs = [] ∧
      (∀ e ∈ evs, e ≠ Event.getenv "DEVELOPER_DIR") := by
  rw [sdk_root_eq] at hr
  cases hd : s.env.DEVELOPER_DIR with
  | some v =>
    rw [hd] at hr
    simp only [Option.some.injEq] at hr
    subst hr
    exact ⟨_, [], find_command_sdk_dev w name argv s v hd, rfl, rfl, rfl, rfl, by simp⟩
  | none =>
    cases hh : s.env.HOME with
    | none => simp [hd, hh] at hr
    | some h =>
      cases hf : w.fopen (candidate h DARWINSDK_CFG) with
      | error e => simp [hd, hh, hf] at hr
      | ok file =>
        simp only [hd, hh, hf, Option.some.injEq] at hr
        subst hr
        refine ⟨_, [.getenv "HOME", .fopen (candidate h DARWINSDK_CFG)],
          find_command_sdk_file w name argv s h file hd hh hf, rfl, rfl, rfl, rfl, ?_⟩
        intro e he
        simp only [List.mem_cons, List.mem_singleton, List.not_mem_nil, or_false] at he
        rcases he with he | he
        · subst he; decide
        · subst he; exact fun hc => Event.noConfusion hc

/-! ## Projections of traces -/

theorem accesses_missEvents (name : CStr) (ds : List CStr) :
    accesses (missEvents name ds) = ds.map (fun d => candidate d name) := by
  induction ds with
  | nil => rfl
  | cons d ds ih =>
    simp only [missEvents, accesses, List.map_cons, List.filterMap_cons] at ih ⊢
    rw [ih]

theorem execvs_missEvents (name : CStr) (ds : List CStr) :
    execvs (missEvents name ds) = [] := by
  induction ds with
  | nil => rfl
  | cons d ds ih =>
    simp only [missEvents, execvs, List.map_cons, List.filterMap_cons] at ih ⊢
    rw [ih]

theorem getenvs_missEvents (name : CStr) (ds : List CStr) :
    getenvs (missEvents name ds) = [] := by
  induction ds with
  | nil => rfl
  | cons d ds ih =>
    simp only [missEvents, getenvs, List.map_cons, List.filterMap_cons] at ih ⊢
    rw [ih]

theorem fopens_missEvents (name : CStr) (ds : List CStr) :
    fopens (missEvents name ds) = [] := by
  induction ds with
  | nil => rfl
  | cons d ds ih =>
    simp only [missEvents, fopens, List.map_cons, List.filterMap_cons] at ih ⊢
    rw [ih]

theorem missEvents_ne_getenv (name : CStr) (ds : List CStr) (v : String) :
    ∀ e ∈ missEvents name ds, e ≠ Event.getenv v := by
  intro e he
  simp only [missEvents, List.mem_map] at he
  obtain ⟨d, _, rfl⟩ := he
  exact fun hc => Event.noConfusion hc

theorem accesses_append (a b : List Event) : accesses (a ++ b) = accesses a ++ accesses b := by
  simp [accesses, List.filterMap_append]

theorem execvs_append (a b : List Event) : execvs (a ++ b) = execvs a ++ execvs b := by
  simp [execvs, List.filterMap_append]

theorem getenvs_append (a b : List Event) : getenvs (a ++ b) = getenvs a ++ getenvs b := by
  simp [getenvs, List.filterMap_append]

theorem fopens_append (a b : List Event) : fopens (a ++ b) = fopens a ++ fopens b := by
  simp [fopens, List.filterMap_append]

theorem stderrs_append (a b : List Event) : stderrs (a ++ b) = stderrs a ++ stderrs b := by
  simp [stderrs, List.filterMap_append]

theorem accesses_cons (e : Event) (l : List Event) :
    accesses (e :: l) = (match e with | .access p => [p] | _ => []) ++ accesses l := by
  cases e <;> simp [accesses, List.filterMap_cons]

theorem execvs_cons (e : Event) (l : List Event) :
    execvs (e :: l) = (match e with | .execv p a _ => [(p, a)] | _ => []) ++ execvs l := by
  cases e <;> simp [execvs, List.filterMap_cons]

theorem getenvs_cons (e : Event) (l : List Event) :
    getenvs (e :: l) = (match e with | .getenv v => [v] | _ => []) ++ getenvs l := by
  cases e <;> simp [getenvs, List.filterMap_cons]

theorem fopens_cons (e : Event) (l : List Event) :
    fopens (e :: l) = (match e with | .fopen p => [p] | _ => []) ++ fopens l := by
  cases e <;> simp [fopens, List.filterMap_cons]

theorem stderrs_cons (e : Event) (l : List Event) :
    stderrs (e :: l) = (match e with | .stderr t => [t] | _ => []) ++ stderrs l := by
  cases e <;> simp [stderrs, List.filterMap_cons]

theorem accesses_nil : accesses [] = [] := rfl

theorem execvs_nil : execvs [] = [] := rfl

theorem getenvs_nil : getenvs [] = [] := rfl

theorem fopens_nil : fopens [] = [] := rfl

theorem stderrs_nil : stderrs [] = [] := rfl

theorem pathPhase_all (l : List Event) (h : ∀ e ∈ l, e ≠ Event.getenv "DEVELOPER_DIR") :
    pathPhase l = l := by
  unfold pathPhase
  rw [List.takeWhile_eq_self_iff]
  intro e he
  simpa using h e he

theorem pathPhase_append (l r : List Event)
    (h : ∀ e ∈ l, e ≠ Event.getenv "DEVELOPER_DIR") :
    pathPhase (l ++ Event.getenv "DEVELOPER_DIR" :: r) = l := by
  unfold pathPhase
  induction l with
  | nil => simp [List.takeWhile]
  | cons a l ih =>
    have ha : (a != Event.getenv "DEVELOPER_DIR") = true := by
      simpa using h a (List.mem_cons_self _ _)
    rw [List.cons_append, List.takeWhile_cons, if_pos ha,
      ih (fun e he => h e (List.mem_cons_of_mem _ he))]

/-! ## First executable entry -/

theorem hit_or_miss (w : World) (name : CStr) (l : List CStr) :
    (∀ x ∈ l, w.access (candidate x name) ≠ none) ∨
      ∃ pre d post, l = pre ++ d :: post ∧
        (∀ x ∈ pre, w.access (candidate x name) ≠ none) ∧
        w.access (candidate d name) = none := by
  induction l with
  | nil => left; intro x hx; cases hx
  | cons a l ih =>
    cases ha : w.access (candidate a name) with
    | none => right; exact ⟨[], a, l, rfl, fun x hx => absurd hx (List.not_mem_nil x), ha⟩
    | some e =>
      rcases ih with h | ⟨pre, d, post, hl, hpre, hd⟩
      · left
        intro x hx
        rcases List.mem_cons.mp hx with rfl | hx
        · rw [ha]; exact fun hc => Option.noConfusion hc
        · exact h x hx
      · right
        refine ⟨a :: pre, d, post, by rw [hl]; rfl, ?_, hd⟩
        intro x hx
        rcases List.mem_cons.mp hx with rfl | hx
        · rw [ha]; exact fun hc => Option.noConfusion hc
        · exact hpre x hx

theorem scanned_miss (w : World) (name : CStr) (l : List CStr)
    (h : ∀ x ∈ l, w.access (candidate x name) ≠ none) :
    scanned w name l = l.map (fun d => candidate d name) := by
  induction l with
  | nil => rfl
  | cons a l ih =>
    have ha := h a (List.mem_cons_self _ _)
    rw [scanned, List.map_cons, ← ih (fun x hx => h x (List.mem_cons_of_mem _ hx))]
    cases hacc : w.access (candidate a name) with
    | none => exact absurd hacc ha
    | some e => rfl

theorem scanned_hit (w : World) (name : CStr) (pre : List CStr) (d : CStr) (post : List CStr)
    (hpre : ∀ x ∈ pre, w.access (candidate x name) ≠ none)
    (hd : w.access (candidate d name) = none) :
    scanned w name (pre ++ d :: post) = (pre ++ [d]).map (fun x => candidate x name) := by
  induction pre with
  | nil => simp [scanned, hd]
  | cons a l ih =>
    have ha := hpre a (List.mem_cons_self _ _)
    rw [List.cons_append, scanned, List.cons_append, List.map_cons,
      ← ih (fun x hx => hpre x (List.mem_cons_of_mem _ hx))]
    cases hacc : w.access (candidate a name) with
    | none => exact absurd hacc ha
    | some e => rfl

/-- The part of `find_command` after the loop starts by entering the resolver. -/
theorem find_command_sdk_trace (w : World) (name : CStr) (argv : List CStr) (s : State) :
    ∃ rest, (find_command_sdk w name argv s).2.trace
      = s.trace ++ Event.getenv "DEVELOPER_DIR" :: rest := by
  cases hd : s.env.DEVELOPER_DIR with
  | some v =>
    rw [find_command_sdk_dev w name argv s v hd]
    unfold sdk_try try_exec
    cases w.access (sdkCandidate v name) with
    | none =>
      cases w.execv (sdkCandidate v name) argv with
      | none => exact ⟨_, by simp [State.emit]; try rfl⟩
      | some e => exact ⟨_, by simp [State.emit]; try rfl⟩
    | some e => exact ⟨_, by simp [State.emit]; try rfl⟩
  | none =>
    cases hh : s.env.HOME with
    | none => rw [find_command_sdk_nohome w name argv s hd hh]; exact ⟨_, by simp [State.emit]; try rfl⟩
    | some h =>
      cases hf : w.fopen (candidate h DARWINSDK_CFG) with
      | error e => rw [find_command_sdk_nofile w name argv s h e hd hh hf]; exact ⟨_, by simp [State.emit]; try rfl⟩
      | ok file =>
        rw [find_command_sdk_file w name argv s h file hd hh hf]
        unfold sdk_try try_exec
        cases w.access (sdkCandidate (fread file w.PATH_MAX) name) with
        | none =>
          cases w.execv (sdkCandidate (fread file w.PATH_MAX) name) argv with
          | none => exact ⟨_, by simp [State.emit]; try rfl⟩
          | some e => exact ⟨_, by simp [State.emit]; try rfl⟩
        | some e => exact ⟨_, by simp [State.emit]; try rfl⟩

/-- C1 (amended): when `PATH` is set and `d` is the first non-empty
colon-separated segment of `PATH` whose candidate `d + "/" + name` is
executable, `find_command` calls `execv` exactly once, on that candidate with
the forwarded argument vector, and the candidates it tests are those of the
non-empty segments up to and including `d`: none of a later segment. -/
theorem find_command_first_match (w : World) (name : CStr) (argv : List CStr)
    (env : Environ) (e0 : Nat) (p : CStr) (pre : List CStr) (d : CStr) (post : List CStr)
    (hp : env.PATH = some p) (hsplit : entries p = pre ++ d :: post)
    (hpre : ∀ x ∈ pre, w.access (candidate x name) ≠ none)
    (hd : w.access (candidate d name) = none) :
    execvs (find_command w name argv (start env e0)).2.trace = [(candidate d name, argv)] ∧
    accesses (find_command w name argv (start env e0)).2.trace
      = (pre ++ [d]).map (fun x => candidate x name) := by
  rw [find_command_hit w name argv (start env e0) p pre d post hp hsplit hpre hd]
  unfold try_exec
  cases w.execv (candidate d name) argv <;>
    simp [start, State.emit, execvs_append, accesses_append, execvs_missEvents,
      accesses_missEvents, execvs_cons, accesses_cons, execvs_nil, accesses_nil]

theorem find_command_first_match_witness :
    entries (str "/usr/bin:/bin") = [] ++ str "/usr/bin" :: [str "/bin"] ∧
    execvs (find_command (testWorld ["/usr/bin/echo", "/bin/echo"] [] []) (str "echo")
        [str "echo", str "hi"] (start (testEnv (some "/usr/bin:/bin") none none) 0)).2.trace
      = [(str "/usr/bin/echo", [str "echo", str "hi"])] :=
  ⟨by decide,
   (find_command_first_match (testWorld ["/usr/bin/echo", "/bin/echo"] [] []) (str "echo")
      [str "echo", str "hi"] (testEnv (some "/usr/bin:/bin") none none) 0
      (str "/usr/bin:/bin") [] (str "/usr/bin") [str "/bin"] rfl (by decide)
      (fun x hx => absurd hx (List.not_mem_nil x)) (by decide)).1⟩

/-- C1 as stated fails: with `PATH=":/usr/bin"` the first colon-split entry is
the empty one, its candidate `"/echo"` is executable, and `find_command`
executes `"/usr/bin/echo"`, the candidate of the later entry. -/
theorem find_command_first_match_counterexample :
    splitColon (str ":/usr/bin") = [] ++ str "" :: [str "/usr/bin"] ∧
    (testWorld ["/echo", "/usr/bin/echo"] [] []).access (candidate (str "") (str "echo"))
      = none ∧
    execvs (find_command (testWorld ["/echo", "/usr/bin/echo"] [] []) (str "echo")
        [str "echo"] (start (testEnv (some ":/usr/bin") none none) 0)).2.trace
      = [(candidate (str "/usr/bin") (str "echo"), [str "echo"])] ∧
    execvs (find_command (testWorld ["/echo", "/usr/bin/echo"] [] []) (str "echo")
        [str "echo"] (start (testEnv (some ":/usr/bin") none none) 0)).2.trace
      ≠ [(candidate (str "") (str "echo"), [str "echo"])] := by
  decide

/-- C2 (amended): with `PATH` set, (1) if no non-empty colon-separated segment
of `PATH` gives an executable candidate, the resolver yields the root `r` and
`r + "/bin/" + name` is executable, then `find_command` calls `execv` exactly
once, on `r + "/bin/" + name` with the forwarded argument vector; (2) if some
non-empty segment gives an executable candidate, the resolver is never entered:
the only variable read is `PATH` and no file is opened. -/
theorem find_command_sdk_fallback (w : World) (name : CStr) (argv : List CStr)
    (env : Environ) (e0 : Nat) (p : CStr) (hp : env.PATH = some p) :
    (∀ r, (∀ x ∈ entries p, w.access (candidate x name) ≠ none) →
        sdk_root w (start env e0) = some r →
        w.access (sdkCandidate r name) = none →
        execvs (find_command w name argv (start env e0)).2.trace
          = [(sdkCandidate r name, argv)]) ∧
    ((∃ x ∈ entries p, w.access (candidate x name) = none) →
        getenvs (find_command w name argv (start env e0)).2.trace = ["PATH"] ∧
        fopens (find_command w name argv (start env e0)).2.trace = []) := by
  constructor
  · intro r hall hr hacc
    rw [find_command_miss w name argv (start env e0) p hp hall]
    have hr2 : sdk_root w
        { env := { (start env e0).env with PATH := some (strtok p delimiter).head },
          errno := missErrno w name (entries p) (start env e0).errno,
          trace := (start env e0).trace ++ Event.getenv "PATH" :: missEvents name (entries p) }
        = some r := by
      rw [sdk_root_eq] at hr ⊢; exact hr
    obtain ⟨env2, evs, heq, _, _, hex, _, _⟩ := find_command_sdk_some w name argv _ r hr2
    rw [heq]
    unfold sdk_try try_exec
    rw [hacc]
    cases w.execv (sdkCandidate r name) argv <;>
      simp [start, State.emit, execvs_append, execvs_missEvents, execvs_cons, execvs_nil, hex]
  · rintro ⟨x, hx, hxacc⟩
    rcases hit_or_miss w name (entries p) with hall | ⟨pre, d, post, hsplit, hpre, hd⟩
    · exact absurd hxacc (hall x hx)
    · rw [find_command_hit w name argv (start env e0) p pre d post hp hsplit hpre hd]
      unfold try_exec
      cases w.execv (candidate d name) argv <;>
        simp [start, State.emit, getenvs_append, getenvs_missEvents, getenvs_cons, getenvs_nil,
          fopens_append, fopens_missEvents, fopens_cons, fopens_nil]

theorem find_command_sdk_fallback_witness :
    sdk_root (testWorld ["/opt/sdk/bin/clang"] [] [])
        (start (testEnv (some "/nonexistent") none (some "/opt/sdk")) 0) = some (str "/opt/sdk") ∧
    execvs (find_command (testWorld ["/opt/sdk/bin/clang"] [] []) (str "clang") [str "clang"]
        (start (testEnv (some "/nonexistent") none (some "/opt/sdk")) 0)).2.trace
      = [(sdkCandidate (str "/opt/sdk") (str "clang"), [str "clang"])] :=
  ⟨by decide,
   (find_command_sdk_fallback (testWorld ["/opt/sdk/bin/clang"] [] []) (str "clang")
      [str "clang"] (testEnv (some "/nonexistent") none (some "/opt/sdk")) 0
      (str "/nonexistent") rfl).1 (str "/opt/sdk") (by decide) (by decide) (by decide)⟩

/-- C2 as stated fails: with `PATH=":/nonexistent"` the empty colon-split entry
gives the executable candidate `"/clang"`, yet `find_command` enters the
resolver (it reads `DEVELOPER_DIR`) and executes the SDK candidate. -/
theorem find_command_sdk_fallback_counterexample :
    str "" ∈ splitColon (str ":/nonexistent") ∧
    (testWorld ["/clang", "/opt/sdk/bin/clang"] [] []).access (candidate (str "") (str "clang"))
      = none ∧
    getenvs (find_command (testWorld ["/clang", "/opt/sdk/bin/clang"] [] []) (str "clang")
        [str "clang"] (start (testEnv (some ":/nonexistent") none (some "/opt/sdk")) 0)).2.trace
      = ["PATH", "DEVELOPER_DIR"] ∧
    execvs (find_command (testWorld ["/clang", "/opt/sdk/bin/clang"] [] []) (str "clang")
        [str "clang"] (start (testEnv (some ":/nonexistent") none (some "/opt/sdk")) 0)).2.trace
      = [(str "/opt/sdk/bin/clang", [str "clang"])] := by
  decide

/-- C4: when `DEVELOPER_DIR` is set to `v` (any value, the empty string
included), `get_sdk_path` returns the pointer to that value, which reads `v`,
and its only action is `getenv("DEVELOPER_DIR")`: `HOME` is not read, no file
is opened, nothing is written to standard error, and `errno` and the
environment are unchanged. So a file is opened only when the variable is unset. -/
theorem get_sdk_path_override (w : World) (s : State) (v : CStr)
    (hd : s.env.DEVELOPER_DIR = some v) :
    sdk_root w s = some v ∧
    get_sdk_path w s
      = (some .developer_dir,
          { env := s.env, errno := s.errno, trace := s.trace ++ [.getenv "DEVELOPER_DIR"] }) ∧
    fopens (get_sdk_path w s).2.trace = fopens s.trace ∧
    stderrs (get_sdk_path w s).2.trace = stderrs s.trace ∧
    getenvs (get_sdk_path w s).2.trace = getenvs s.trace ++ ["DEVELOPER_DIR"] := by
  have h := get_sdk_path_dev w s v hd
  refine ⟨?_, ?_, ?_, ?_, ?_⟩
  · rw [sdk_root_eq, hd]
  · rw [h]; rfl
  · rw [h]; simp [State.emit, fopens_append, fopens_cons, fopens_nil]
  · rw [h]; simp [State.emit, stderrs_append, stderrs_cons, stderrs_nil]
  · rw [h]; simp [State.emit, getenvs_append, getenvs_cons, getenvs_nil]

theorem get_sdk_path_override_witness :
    (testEnv none (some "/home/u") (some "")).DEVELOPER_DIR = some (str "") ∧
    sdk_root (testWorld [] [] [("/home/u/.darwinsdk.dat", "/opt/sdk")])
        (start (testEnv none (some "/home/u") (some "")) 0) = some (str "") ∧
    (get_sdk_path (testWorld [] [] [("/home/u/.darwinsdk.dat", "/opt/sdk")])
        (start (testEnv none (some "/home/u") (some "")) 0)).2.trace
      = [.getenv "DEVELOPER_DIR"] :=
  ⟨rfl,
   (get_sdk_path_override (testWorld [] [] [("/home/u/.darwinsdk.dat", "/opt/sdk")])
      (start (testEnv none (some "/home/u") (some "")) 0) (str "") rfl).1,
   congrArg (fun r => r.2.trace)
     (get_sdk_path_override (testWorld [] [] [("/home/u/.darwinsdk.dat", "/opt/sdk")])
        (start (testEnv none (some "/home/u") (some "")) 0) (str "") rfl).2.1⟩

/-- C5: when `PATH` is unset, `find_command` reads `PATH`, writes
"xcrun: error: failed to read PATH variable." to standard error and returns
`NULL`; it does nothing else (no `access`, no resolver, no `execv`), whatever
`DEVELOPER_DIR`, `HOME` and the file system hold. -/
theorem find_command_PATH_unset (w : World) (name : CStr) (argv : List CStr) (s : State)
    (hp : s.env.PATH = none) :
    find_command w name argv s
      = (.returned none,
          { env := s.env, errno := s.errno,
            trace := s.trace ++ [.getenv "PATH",
              .stderr (str "xcrun: error: failed to read PATH variable.\n")] }) := by
  simp [find_command, State.emit, hp, msg_path, str]

theorem find_command_PATH_unset_witness :
    (testWorld ["/opt/sdk/bin/clang"] [] []).access (sdkCandidate (str "/opt/sdk") (str "clang"))
      = none ∧
    find_command (testWorld ["/opt/sdk/bin/clang"] [] []) (str "clang") [str "clang"]
        (start (testEnv none (some "/home/u") (some "/opt/sdk")) 0)
      = (.returned none,
          { env := testEnv none (some "/home/u") (some "/opt/sdk"), errno := 0,
            trace := [] ++ [.getenv "PATH",
              .stderr (str "xcrun: error: failed to read PATH variable.\n")] }) :=
  ⟨by decide,
   find_command_PATH_unset (testWorld ["/opt/sdk/bin/clang"] [] []) (str "clang") [str "clang"]
     (start (testEnv none (some "/home/u") (some "/opt/sdk")) 0) rfl⟩

/-- C6: with `PATH` set, (1) if the first executable candidate comes from the
non-empty segment `d` of `PATH` and `execv` of it fails with `e`, then
`find_command` returns `NULL` and its actions are exactly: read `PATH`, test the
candidates up to `d`, `execv` the candidate, print "can't exec" naming the
candidate; no later segment is tested and the resolver is not entered;
(2) if no segment gives an executable candidate and `execv` of the executable
SDK candidate fails with `e`, then `find_command` returns `NULL` and its last
three actions are the test of that candidate, its `execv`, and the "can't exec"
diagnostic naming it, with no `execv` before. -/
theorem find_command_exec_failure (w : World) (name : CStr) (argv : List CStr)
    (env : Environ) (e0 : Nat) (p : CStr) (hp : env.PATH = some p) :
    (∀ pre d post e, entries p = pre ++ d :: post →
        (∀ x ∈ pre, w.access (candidate x name) ≠ none) →
        w.access (candidate d name) = none →
        w.execv (candidate d name) argv = some e →
        (find_command w name argv (start env e0)).1 = .returned none ∧
        ∃ envx, (find_command w name argv (start env e0)).2.trace
          = Event.getenv "PATH" :: missEvents name pre
              ++ [.access (candidate d name), .execv (candidate d name) argv envx,
                  .stderr (msg_cant_exec w (candidate d name) e)]) ∧
    (∀ r e, (∀ x ∈ entries p, w.access (candidate x name) ≠ none) →
        sdk_root w (start env e0) = some r →
        w.access (sdkCandidate r name) = none →
        w.execv (sdkCandidate r name) argv = some e →
        (find_command w name argv (start env e0)).1 = .returned none ∧
        ∃ tr envx, (find_command w name argv (start env e0)).2.trace
          = tr ++ [.access (sdkCandidate r name), .execv (sdkCandidate r name) argv envx,
                   .stderr (msg_cant_exec w (sdkCandidate r name) e)] ∧
          execvs tr = []) := by
  constructor
  · intro pre d post e hsplit hpre hd hex
    rw [find_command_hit w name argv (start env e0) p pre d post hp hsplit hpre hd]
    unfold try_exec
    rw [hex]
    exact ⟨rfl, { env with PATH := some (strtok p delimiter).head }, by simp [start]⟩
  · intro r e hall hr hacc hex
    rw [find_command_miss w name argv (start env e0) p hp hall]
    have hr2 : sdk_root w
        { env := { (start env e0).env with PATH := some (strtok p delimiter).head },
          errno := missErrno w name (entries p) (start env e0).errno,
          trace := (start env e0).trace ++ Event.getenv "PATH" :: missEvents name (entries p) }
        = some r := by
      rw [sdk_root_eq] at hr ⊢; exact hr
    obtain ⟨env2, evs, heq, _, _, hexv, _, _⟩ := find_command_sdk_some w name argv _ r hr2
    rw [heq]
    unfold sdk_try try_exec
    rw [hacc]
    rw [hex]
    refine ⟨rfl, Event.getenv "PATH" :: missEvents name (entries p)
      ++ Event.getenv "DEVELOPER_DIR" :: evs, env2, ?_, ?_⟩
    · simp [start, State.emit]
    · simp [execvs_append, execvs_cons, execvs_nil, execvs_missEvents, hexv]

theorem find_command_exec_failure_witness :
    (find_command (testWorld ["/usr/bin/echo", "/bin/echo"] ["/usr/bin/echo"] []) (str "echo")
        [str "echo"] (start (testEnv (some "/usr/bin:/bin") none none) 0)).1 = .returned none ∧
    ∃ envx, (find_command (testWorld ["/usr/bin/echo", "/bin/echo"] ["/usr/bin/echo"] [])
        (str "echo") [str "echo"] (start (testEnv (some "/usr/bin:/bin") none none) 0)).2.trace
      = Event.getenv "PATH" :: missEvents (str "echo") []
          ++ [.access (candidate (str "/usr/bin") (str "echo")),
              .execv (candidate (str "/usr/bin") (str "echo")) [str "echo"] envx,
              .stderr (msg_cant_exec (testWorld ["/usr/bin/echo", "/bin/echo"] ["/usr/bin/echo"] [])
                (candidate (str "/usr/bin") (str "echo")) 8)] :=
  (find_command_exec_failure (testWorld ["/usr/bin/echo", "/bin/echo"] ["/usr/bin/echo"] [])
    (str "echo") [str "echo"] (testEnv (some "/usr/bin:/bin") none none) 0
    (str "/usr/bin:/bin") rfl).1 [] (str "/usr/bin") [str "/bin"] 8 (by decide)
    (fun x hx => absurd hx (List.not_mem_nil x)) (by decide) (by decide)

/-- C9 (amended): with `PATH` set, the candidates `find_command` tests before it
enters the resolver are those of the non-empty colon-separated segments of
`PATH`, in order, up to and including the first executable one: empty segments
are skipped, not tested as `"/" + name`. -/
theorem path_scan_candidates (w : World) (name : CStr) (argv : List CStr)
    (env : Environ) (e0 : Nat) (p : CStr) (hp : env.PATH = some p) :
    accesses (pathPhase (find_command w name argv (start env e0)).2.trace)
      = scanned w name (entries p) := by
  have hne : Event.getenv "PATH" ≠ Event.getenv "DEVELOPER_DIR" := by decide
  rcases hit_or_miss w name (entries p) with hall | ⟨pre, d, post, hsplit, hpre, hd⟩
  · rw [find_command_miss w name argv (start env e0) p hp hall]
    obtain ⟨rest, hrest⟩ := find_command_sdk_trace w name argv
      { env := { (start env e0).env with PATH := some (strtok p delimiter).head },
        errno := missErrno w name (entries p) (start env e0).errno,
        trace := (start env e0).trace ++ Event.getenv "PATH" :: missEvents name (entries p) }
    rw [hrest, pathPhase_append, scanned_miss w name _ hall]
    · simp [start, accesses_cons, accesses_missEvents]
    · intro e he
      simp only [start, List.nil_append, List.mem_cons] at he
      rcases he with rfl | he
      · exact hne
      · exact missEvents_ne_getenv name _ _ e he
  · rw [find_command_hit w name argv (start env e0) p pre d post hp hsplit hpre hd, hsplit,
      scanned_hit w name pre d post hpre hd]
    have hmiss := missEvents_ne_getenv name pre "DEVELOPER_DIR"
    unfold try_exec
    cases w.execv (candidate d name) argv with
    | none =>
      rw [pathPhase_all]
      · simp [start, State.emit, accesses_append, accesses_cons, accesses_nil,
          accesses_missEvents]
      · simp only [start, State.emit, List.nil_append, List.forall_mem_append,
          List.forall_mem_cons, List.cons_append]
        simp
        exact hmiss
    | some e1 =>
      rw [pathPhase_all]
      · simp [start, accesses_append, accesses_cons, accesses_nil, accesses_missEvents]
      · simp only [start, State.emit, List.nil_append, List.forall_mem_append,
          List.forall_mem_cons, List.cons_append]
        simp
        exact hmiss

theorem path_scan_candidates_witness :
    accesses (pathPhase (find_command (testWorld [] [] []) (str "ls") [str "ls"]
        (start (testEnv (some "/a::/b:") none none) 0)).2.trace)
      = [str "/a/ls", str "/b/ls"] :=
  path_scan_candidates (testWorld [] [] []) (str "ls") [str "ls"]
    (testEnv (some "/a::/b:") none none) 0 (str "/a::/b:") rfl

/-- C9 as stated fails: with `PATH="/a::/b"` and nothing executable, the
colon-split with empty strings kept is `["/a", "", "/b"]`, but the candidates
tested are `"/a/ls"` and `"/b/ls"` only; `"/ls"` is never tested. -/
theorem path_scan_candidates_counterexample :
    splitColon (str "/a::/b") = [str "/a", str "", str "/b"] ∧
    accesses (pathPhase (find_command (testWorld [] [] []) (str "ls") [str "ls"]
        (start (testEnv (some "/a::/b") none none) 0)).2.trace)
      = [str "/a/ls", str "/b/ls"] ∧
    accesses (pathPhase (find_command (testWorld [] [] []) (str "ls") [str "ls"]
        (start (testEnv (some "/a::/b") none none) 0)).2.trace)
      ≠ (splitColon (str "/a::/b")).map (fun d => candidate d (str "ls")) ∧
    candidate (str "") (str "ls")
      ∉ accesses (find_command (testWorld [] [] []) (str "ls") [str "ls"]
          (start (testEnv (some "/a::/b") none none) 0)).2.trace := by
  decide

/-- C8 fails on the code: the environment handed to the new program differs
from the one at process start. `strtok` cuts `PATH` after its first entry; the
SDK candidate is built in place in the value of `DEVELOPER_DIR`; the
configuration file's path is built in place in the value of `HOME`; and the
same holds on a failure return. -/
theorem find_command_overwrites_environment :
    execEnvs (find_command (testWorld ["/usr/bin/echo"] [] []) (str "echo") [str "echo"]
        (start (testEnv (some "/usr/bin:/bin") (some "/home/u") none) 0)).2.trace
      = [testEnv (some "/usr/bin") (some "/home/u") none] ∧
    execEnvs (find_command (testWorld ["/opt/sdk/bin/clang"] [] []) (str "clang") [str "clang"]
        (start (testEnv (some "/nonexistent") (some "/home/u") (some "/opt/sdk")) 0)).2.trace
      = [testEnv (some "/nonexistent") (some "/home/u") (some "/opt/sdk/bin/clang")] ∧
    execEnvs (find_command
        (testWorld ["/opt/sdk/bin/clang"] [] [("/home/u/.darwinsdk.dat", "/opt/sdk")])
        (str "clang") [str "clang"]
        (start (testEnv (some "/nonexistent") (some "/home/u") none) 0)).2.trace
      = [testEnv (some "/nonexistent") (some "/home/u/.darwinsdk.dat") none] ∧
    (find_command (testWorld [] [] []) (str "ls") [str "ls"]
        (start (testEnv (some "/a:/b") (some "/home/u") none) 0)).2.env
      = testEnv (some "/a") (some "/home/u/.darwinsdk.dat") none := by
  decide

end Xcrun
